import Mathlib

/-!
Shallow embedding of the `license-verifier` Go repository
(`go.bytebuilders.dev/license-verifier`), covering:

* `lib.go` — `LicenseOptions`, `validateLicense`, `VerifyLicense`,
  `VerifyLicensePeriodically`, `handleLicenseVerificationFailure`;
* `client/client.go` — `AcquireLicense`, `Client`, `NewClient`,
  `Client.AcquireLicense`;
* the `info` package — `ParseFeatures`, `SkipLicenseVerification`,
  `APIServerAddress`, `LicenseIssuerAPIEndpoint`.

External library calls (PEM decoding, X.509 parsing and chain
verification, the Kubernetes API, the HTTP transport, the filesystem)
are modelled as oracle fields of explicit environment structures; the
control flow of the repository's own functions is translated
statement by statement.  Go byte slices are `List Nat`, Go `error`
values are `Option String` / `Except String`, and Go methods that
mutate their receiver are translated in state-passing style.
-/

namespace LicenseVerifier

/-- Errors are modelled by their message text, as produced by the Go
`errors` package. -/
abbrev Err := String

/-- Model of `errors.Wrap(err, msg)` from github.com/pkg/errors: the
resulting message is `msg ++ ": " ++ err`. -/
def errWrap (msg e : Err) : Err := msg ++ ": " ++ e

/-- A PEM block as returned by `pem.Decode`: only the `Bytes` field is
used by `validateLicense`. -/
structure PemBlock where
  bytes : List Nat
deriving DecidableEq, Repr

/-- An X.509 certificate as used by `validateLicense`: the raw DER and
the subject's `Organization` list (`cert.Subject.Organization`). -/
structure Cert where
  raw : List Nat
  subjectOrganization : List String
deriving DecidableEq, Repr

/-- The single extended key usage the verifier requests
(`x509.ExtKeyUsageClientAuth`). -/
inductive ExtKeyUsage where
  | clientAuth
deriving DecidableEq, Repr

/-- `x509.VerifyOptions` as built in `validateLicense`: the DNS name is
set to the cluster UID, the root pool is the pool built from the CA
bytes (represented by those bytes), and the key usages list. -/
structure VerifyOptions where
  dnsName : String
  rootsFromPEM : List Nat
  keyUsages : List ExtKeyUsage
deriving DecidableEq, Repr

/-- Oracle environment for the cryptographic library calls made by
`validateLicense`.  Each field models one external function at its
interface boundary. -/
structure X509Env where
  /-- `pem.Decode` restricted to its first return value: `none` models
  a `nil` block. -/
  pemDecode : List Nat → Option PemBlock
  /-- `x509.ParseCertificate`. -/
  parseCertificate : List Nat → Except Err Cert
  /-- `x509.CertPool.AppendCertsFromPEM`: whether at least one CA
  certificate was parsed from the given PEM bytes. -/
  appendCertsFromPEM : List Nat → Bool
  /-- `cert.Verify(opts)`: `Except.error` models a non-nil chain
  verification error. -/
  verify : Cert → VerifyOptions → Except Err Unit

/-- The `LicenseOptions` struct of `lib.go`, polymorphic in the types
of the external `rest.Config` and `kubernetes.Interface` handles.
`k8sClient` is `Option` because the Go field starts out nil and is
populated by `createClients`. -/
structure LicenseOptions (Config K8sClient : Type) where
  clusterUID : String
  productName : String
  caCert : List Nat
  license : List Nat
  config : Config
  k8sClient : Option K8sClient
  licenseFile : String

/-- The structured outcome of one `validateLicense` run.  Each failure
constructor corresponds to one `return` statement of the Go function,
in source order. -/
inductive VerifyOutcome where
  | success
  | decodeFailure
  | parseFailure (e : Err)
  | rootPoolFailure
  | chainFailure (e : Err)
  | productMismatch (productName : String)
deriving DecidableEq, Repr

/-- The Go error value rendered by each `VerifyOutcome`, matching the
message strings of `validateLicense` (`nil` for success). -/
def VerifyOutcome.toError : VerifyOutcome → Option Err
  | .success => none
  | .decodeFailure => some "failed to parse certificate PEM"
  | .parseFailure e => some (errWrap "failed to parse certificate" e)
  | .rootPoolFailure => some "failed to parse root certificate"
  | .chainFailure e => some (errWrap "failed to verify certificate" e)
  | .productMismatch p => some ("license was not issued for " ++ p)

/-- Model of `sets.NewString(l...).Has(x)` from gomodules.xyz/sets:
set membership of `x` in the elements of `l`. -/
def setsNewStringHas (l : List String) (x : String) : Bool :=
  l.contains x

/-- The `(opt *LicenseOptions) validateLicense` method of `lib.go`,
translated statement by statement against the oracle environment. -/
def validateLicense {Config K8sClient : Type} (env : X509Env)
    (opt : LicenseOptions Config K8sClient) : VerifyOutcome :=
  match env.pemDecode opt.license with
  | none => .decodeFailure
  | some block =>
    match env.parseCertificate block.bytes with
    | .error e => .parseFailure e
    | .ok cert =>
      if !env.appendCertsFromPEM opt.caCert then
        .rootPoolFailure
      else
        match env.verify cert
            ⟨opt.clusterUID, opt.caCert, [.clientAuth]⟩ with
        | .error e => .chainFailure e
        | .ok _ =>
          if !setsNewStringHas cert.subjectOrganization opt.productName then
            .productMismatch opt.productName
          else
            .success

/-- Constant `EventSourceLicenseVerifier` from `lib.go`. -/
def EventSourceLicenseVerifier : String := "License Verifier"

/-- Constant `EventReasonLicenseVerificationFailed` from `lib.go`. -/
def EventReasonLicenseVerificationFailed : String := "License Verification Failed"

/-- The root workload found by `dynamic.DetectWorkload`; only its name
(`parent.GetName()`) is consumed. -/
structure Workload where
  name : String
deriving DecidableEq, Repr

/-- An object reference as produced by `reference.GetReference`. -/
structure ObjRef where
  kind : String
  nsName : String
  name : String
deriving DecidableEq, Repr

/-- `metav1.ObjectMeta` restricted to the two fields the handler
sets. -/
structure ObjectMeta where
  name : String
  nsName : String
deriving DecidableEq, Repr

/-- A `core.Event` restricted to the fields touched by the handler's
mutation closure.  Timestamps are abstract instants (`Nat`), with `0`
modelling the Go zero time. -/
structure Event where
  involvedObject : ObjRef
  typ : String
  sourceComponent : String
  reason : String
  message : String
  firstTimestamp : Nat
  lastTimestamp : Nat
  count : Nat
deriving DecidableEq, Repr

/-- A fresh (zero-valued) `core.Event` with the given object meta, as
created by `CreateOrPatchEvent` when no event exists yet.  The meta is
not among the modelled `Event` fields, so the zero event is meta
independent. -/
def newEvent (_ : ObjectMeta) : Event :=
  ⟨⟨"", "", ""⟩, "", "", "", "", 0, 0, 0⟩

/-- Go run-time panics that the handler can hit. -/
inductive GoPanic where
  /-- calling a method on a nil `error` interface value -/
  | nilErrorMethodCall
  /-- calling a method on a nil `kubernetes.Interface` value -/
  | nilInterfaceCall
deriving DecidableEq, Repr

/-- Model of `meta.NameWithSuffix` from kmodules: the name joined with
the suffix. -/
def nameWithSuffix (name suffix : String) : String :=
  name ++ "-" ++ suffix

/-- The event-mutation closure passed to `CreateOrPatchEvent` in
`handleLicenseVerificationFailure`.  `errVar` is the value of the `err`
variable captured by the closure; the Go code computes the message with
`err.Error()`, which panics when that captured value is nil. -/
def eventTransform (errVar : Option Err) (ref : ObjRef) (now : Nat)
    (e : Event) : Except GoPanic Event :=
  match errVar with
  | none => .error .nilErrorMethodCall
  | some m => .ok { e with
      involvedObject := ref
      typ := "Warning"
      sourceComponent := EventSourceLicenseVerifier
      reason := EventReasonLicenseVerificationFailed
      message := "Failed to verify license. Reason: " ++ m
      firstTimestamp := if e.firstTimestamp = 0 then now else e.firstTimestamp
      lastTimestamp := now
      count := e.count + 1 }

/-- Oracle environment for the external calls of
`handleLicenseVerificationFailure`. -/
structure FailureEnv (Config K8sClient : Type) where
  /-- `meta.PossiblyInCluster()` -/
  possiblyInCluster : Bool
  /-- `os.Hostname()` -/
  hostname : Except Err String
  /-- `meta.Namespace()` -/
  podNamespace : String
  /-- `dynamic.DetectWorkload(ctx, config, gvr, namespace, podName)` -/
  detectWorkload : Config → String → String → Except Err Workload
  /-- `reference.GetReference(scheme, parent)` -/
  getReference : Workload → Except Err ObjRef
  /-- the event `CreateOrPatchEvent` finds for the given meta, if any -/
  existingEvent : ObjectMeta → Option Event
  /-- the write performed by `CreateOrPatchEvent` after the mutation
  closure ran; `some e` models a non-nil error -/
  writeEvent : K8sClient → ObjectMeta → Event → Option Err
  /-- `metav1.Now()` -/
  now : Nat

/-- How the body of `handleLicenseVerificationFailure` ends: a normal
`return` with a Go error value, or a run-time panic. -/
inductive BodyResult where
  | ret (e : Option Err)
  | panicked (p : GoPanic)
deriving DecidableEq, Repr

/-- The body of `handleLicenseVerificationFailure` (everything except
the deferred termination), returning how it ended together with the
event that was successfully upserted, if any. -/
def handlerBody {Config K8sClient : Type}
    (env : FailureEnv Config K8sClient)
    (opt : LicenseOptions Config K8sClient) (_licenseErr : Err) :
    BodyResult × Option Event :=
  -- log.Errorln("Failed to verify license. Reason: ", licenseErr.Error()):
  -- the failure reason is only logged here, not otherwise consumed
  if !env.possiblyInCluster then (.ret none, none)
  else
    match env.hostname with
    | .error e => (.ret (some e), none)
    | .ok podName =>
      let ns := env.podNamespace
      match env.detectWorkload opt.config ns podName with
      | .error e => (.ret (some e), none)
      | .ok parent =>
        match env.getReference parent with
        | .error e => (.ret (some e), none)
        | .ok ref =>
          let eventMeta : ObjectMeta := ⟨nameWithSuffix parent.name "license", ns⟩
          match opt.k8sClient with
          | none => (.panicked .nilInterfaceCall, none)
          | some c =>
            let in0 := (env.existingEvent eventMeta).getD (newEvent eventMeta)
            -- the closure's captured `err` is the result of
            -- `reference.GetReference`, which is nil on this path
            match eventTransform none ref env.now in0 with
            | .error p => (.panicked p, none)
            | .ok ev =>
              match env.writeEvent c eventMeta ev with
              | some e => (.ret (some e), some ev)
              | none => (.ret none, some ev)

/-- The observable outcome of one `handleLicenseVerificationFailure`
call: how the body ended, what was logged and written, and the
process-termination effects of the deferred closure. -/
structure HandlerOutcome where
  body : BodyResult
  eventWritten : Option Event
  loggedReason : String
  /-- `syscall.Kill(syscall.Getpid(), syscall.SIGINT)` ran -/
  sentSIGINT : Bool
  /-- the status `os.Exit` was called with -/
  exitCode : Option Nat
deriving DecidableEq, Repr

/-- `handleLicenseVerificationFailure` from `lib.go`.  The deferred
closure registered on entry runs on every exit path — after a normal
`return` and while unwinding a panic alike — and unconditionally sends
SIGINT to the process's own pid and then calls `os.Exit(1)`, so the
function never actually returns to its caller. -/
def handleLicenseVerificationFailure {Config K8sClient : Type}
    (env : FailureEnv Config K8sClient)
    (opt : LicenseOptions Config K8sClient) (licenseErr : Err) :
    HandlerOutcome :=
  let r := handlerBody env opt licenseErr
  { body := r.1
    eventWritten := r.2
    loggedReason := "Failed to verify license. Reason: " ++ licenseErr
    sentSIGINT := true
    exitCode := some 1 }

/-- Oracle environment for the verification scheduler
(`VerifyLicense` / `VerifyLicensePeriodically`). -/
structure SchedulerEnv (Config K8sClient : Type) where
  /-- `kubernetes.NewForConfig` -/
  newForConfig : Config → Except Err K8sClient
  /-- `clusterid.ClusterUID(client.CoreV1().Namespaces())` -/
  clusterUID : Option K8sClient → Except Err String
  /-- `ioutil.ReadFile` -/
  readFile : String → Except Err (List Nat)
  x509 : X509Env
  failure : FailureEnv Config K8sClient

/-- `(opt *LicenseOptions) createClients` in state-passing style: the
Go assignment `opt.k8sClient, err = kubernetes.NewForConfig(...)`
stores the (nil on failure) client and returns the error. -/
def createClients {Config K8sClient : Type}
    (env : SchedulerEnv Config K8sClient)
    (opt : LicenseOptions Config K8sClient) :
    Option Err × LicenseOptions Config K8sClient :=
  match env.newForConfig opt.config with
  | .ok c => (none, { opt with k8sClient := some c })
  | .error e => (some e, { opt with k8sClient := none })

/-- `(opt *LicenseOptions) readLicenseFromFile` in state-passing
style. -/
def readLicenseFromFile {Config K8sClient : Type}
    (env : SchedulerEnv Config K8sClient)
    (opt : LicenseOptions Config K8sClient) :
    Option Err × LicenseOptions Config K8sClient :=
  match env.readFile opt.licenseFile with
  | .ok d => (none, { opt with license := d })
  | .error e => (some e, { opt with license := [] })

/-- `(opt *LicenseOptions) readClusterUID` in state-passing style. -/
def readClusterUID {Config K8sClient : Type}
    (env : SchedulerEnv Config K8sClient)
    (opt : LicenseOptions Config K8sClient) :
    Option Err × LicenseOptions Config K8sClient :=
  match env.clusterUID opt.k8sClient with
  | .ok u => (none, { opt with clusterUID := u })
  | .error e => (some e, { opt with clusterUID := "" })

/-- How one invocation of the poll condition ends: a normal Go
`(done, err)` return, or process exit inside
`handleLicenseVerificationFailure` (whose deferred `os.Exit(1)` fires
before the condition's `return` completes). -/
inductive CondOutcome where
  | ret (done : Bool) (e : Option Err)
  | exited (h : HandlerOutcome)
deriving DecidableEq, Repr

/-- Result of `wait.PollUntil`: the condition returned true (`nil`
result), the condition returned an error, the stop channel fired
(`ErrWaitTimeout`), or the process terminated inside the condition. -/
inductive PollResult where
  | condTrue
  | condErr (e : Err)
  | waitTimeout
  | terminated (h : HandlerOutcome)
deriving DecidableEq, Repr

/-- `wait.PollUntil(interval, cond, stopCh)` from
k8s.io/apimachinery/pkg/util/wait, over an abstract tick budget:
`ticks` is the number of timer ticks delivered before the external
stop channel fires.  Each tick runs the condition once; a non-nil
error returns it, `done = true` returns nil, otherwise the loop blocks
until the next tick; when the stop channel fires first, the loop
returns `ErrWaitTimeout` without running the condition again. -/
def pollUntil {σ : Type} (cond : σ → CondOutcome × σ) :
    Nat → σ → PollResult × σ
  | 0, st => (.waitTimeout, st)
  | n + 1, st =>
    match cond st with
    | (.exited h, st') => (.terminated h, st')
    | (.ret done e, st') =>
      match e with
      | some e' => (.condErr e', st')
      | none => if done then (.condTrue, st') else pollUntil cond n st'

/-- Loop state threaded through the periodic verifier: the
`LicenseOptions` receiver plus a ghost counter of verification
attempts (condition invocations), used only to state temporal
properties. -/
structure LoopState (Config K8sClient : Type) where
  opt : LicenseOptions Config K8sClient
  attempts : Nat

/-- The poll condition closure of `VerifyLicensePeriodically`: re-read
the license file, validate it, and on any error hand off to the fatal
failure handler; on success the Go code returns `(true, nil)`. -/
def verifyPeriodicallyCond {Config K8sClient : Type}
    (env : SchedulerEnv Config K8sClient)
    (st : LoopState Config K8sClient) :
    CondOutcome × LoopState Config K8sClient :=
  let st1 : LoopState Config K8sClient := { st with attempts := st.attempts + 1 }
  match readLicenseFromFile env st1.opt with
  | (some e, opt') =>
    (.exited (handleLicenseVerificationFailure env.failure opt' e),
     { st1 with opt := opt' })
  | (none, opt') =>
    match (validateLicense env.x509 opt').toError with
    | some e =>
      (.exited (handleLicenseVerificationFailure env.failure opt' e),
       { st1 with opt := opt' })
    | none => (.ret true none, { st1 with opt := opt' })

/-- Result of `VerifyLicensePeriodically`: process exit during session
setup, or the result of the polling loop. -/
inductive PeriodicResult where
  | setupTerminated (h : HandlerOutcome)
  | poll (r : PollResult)
deriving DecidableEq, Repr

/-- `VerifyLicensePeriodically(config, licenseFile, stopCh)` from
`lib.go`: build the client, resolve the cluster UID, then poll the
verification condition at a fixed one-hour interval until the stop
channel fires.  `ticks` abstracts the number of timer ticks delivered
before the stop channel fires. -/
def verifyLicensePeriodically {Config K8sClient : Type}
    (env : SchedulerEnv Config K8sClient) (config : Config)
    (licenseFile : String) (ticks : Nat) :
    PeriodicResult × LoopState Config K8sClient :=
  let opt0 : LicenseOptions Config K8sClient :=
    ⟨"", "", [], [], config, none, licenseFile⟩
  match createClients env opt0 with
  | (some e, opt1) =>
    (.setupTerminated (handleLicenseVerificationFailure env.failure opt1 e),
     ⟨opt1, 0⟩)
  | (none, opt1) =>
    match readClusterUID env opt1 with
    | (some e, opt2) =>
      (.setupTerminated (handleLicenseVerificationFailure env.failure opt2 e),
       ⟨opt2, 0⟩)
    | (none, opt2) =>
      let (r, st) := pollUntil (verifyPeriodicallyCond env) ticks ⟨opt2, 0⟩
      (.poll r, st)

/-- A parsed URL restricted to the components the `info` package
touches: scheme, host, and path (no user, query, fragment or opaque
part). -/
structure URL where
  scheme : String
  host : String
  path : String
deriving DecidableEq, Repr

/-- The path component of `url.URL.String()`: when the host is present
and the path is non-empty and does not start with `/`, a `/` is
inserted before it. -/
def urlPathPart (path : String) : String :=
  match path.data with
  | [] => ""
  | c :: _ => if c = '/' then path else "/" ++ path

/-- `url.URL.String()` for URLs of the restricted shape above. -/
def urlString (u : URL) : String :=
  u.scheme ++ "://" ++ u.host ++ urlPathPart u.path

/-- The component-processing core of Go `path.Clean`: drop empty and
`.` components, resolve `..` against the accumulator (dropping it at
the root of a rooted path, keeping it at the head of a relative
path). -/
def cleanComponents (rooted : Bool) : List String → List String → List String
  | [], acc => acc.reverse
  | "" :: rest, acc => cleanComponents rooted rest acc
  | "." :: rest, acc => cleanComponents rooted rest acc
  | ".." :: rest, acc =>
    match acc with
    | [] => if rooted then cleanComponents rooted rest []
            else cleanComponents rooted rest [".."]
    | a :: as =>
      if a = ".." then cleanComponents rooted rest (".." :: a :: as)
      else cleanComponents rooted rest as
  | c :: rest, acc => cleanComponents rooted rest (c :: acc)

/-- Go `path.Clean`. -/
def pathClean (p : String) : String :=
  if p = "" then "."
  else
    let rooted : Bool := match p.data with | '/' :: _ => true | _ => false
    let comps := (p.data.splitOnP (fun c => c == '/')).map (fun w => String.mk w)
    let out := String.intercalate "/" (cleanComponents rooted comps [])
    if rooted then (if out = "" then "/" else "/" ++ out)
    else (if out = "" then "." else out)

/-- Go `path.Join`: skip leading empty elements, join the rest with
`/`, and clean the result; all-empty input yields the empty string. -/
def pathJoin (elems : List String) : String :=
  match elems.dropWhile (fun e => e == "") with
  | [] => ""
  | es => pathClean (String.intercalate "/" es)

/-- Go `strconv.ParseBool`. -/
def parseBool (s : String) : Except Err Bool :=
  if ["1", "t", "T", "true", "TRUE", "True"].contains s then .ok true
  else if ["0", "f", "F", "false", "FALSE", "False"].contains s then .ok false
  else .error "invalid syntax"

/-- `info.prodAddress = "https://byte.builders"` as parsed by
`url.Parse`. -/
def prodAddressURL : URL := ⟨"https", "byte.builders", ""⟩

/-- `info.qaAddress = "https://appscode.ninja"` as parsed by
`url.Parse`. -/
def qaAddressURL : URL := ⟨"https", "appscode.ninja", ""⟩

/-- `info.licenseIssuerAPIPath`. -/
def licenseIssuerAPIPath : String := "api/v1/license/issue"

/-- `info.SkipLicenseVerification()`: parse the module-level
`EnforceLicense` string as a bool, treating a parse failure as false,
and negate it.  The ambient global is passed explicitly. -/
def SkipLicenseVerification (enforceLicense : String) : Bool :=
  match parseBool enforceLicense with
  | .ok v => !v
  | .error _ => !false

/-- `info.APIServerAddress()`. -/
def APIServerAddress (enforceLicense : String) : URL :=
  if SkipLicenseVerification enforceLicense then qaAddressURL
  else prodAddressURL

/-- `info.LicenseIssuerAPIEndpoint()`. -/
def LicenseIssuerAPIEndpoint (enforceLicense : String) : String :=
  let u := APIServerAddress enforceLicense
  urlString { u with path := pathJoin [u.path, licenseIssuerAPIPath] }

/-- The `client.Client` struct. -/
structure Client where
  url : String
  token : String
  clusterUID : String
deriving DecidableEq, Repr

/-- `client.NewClient(baseURL, token, clusterUID)`.  `parseURL` models
`url.Parse`; `enforceLicense` is the ambient `info.EnforceLicense`
global consulted when no base URL is given. -/
def NewClient (parseURL : String → Except Err URL)
    (enforceLicense baseURL token clusterUID : String) :
    Except Err Client :=
  if baseURL = "" then
    .ok ⟨LicenseIssuerAPIEndpoint enforceLicense, token, clusterUID⟩
  else
    match parseURL baseURL with
    | .error e => .error e
    | .ok u =>
      .ok ⟨urlString { u with path := pathJoin [u.path, licenseIssuerAPIPath] },
           token, clusterUID⟩

/-- An outgoing HTTP request as built by `AcquireLicense`. -/
structure Request where
  method : String
  url : String
  body : String
  authorization : Option String
deriving DecidableEq, Repr

/-- An HTTP response, its body already read
(`http.DefaultClient.Do` plus the body copy). -/
structure HTTPResp where
  statusCode : Nat
  body : String
deriving DecidableEq, Repr

/-- The deserialized success body of the plain `AcquireLicense`:
`{"license": <base64 bytes>}`. -/
structure LicenseResponse where
  license : List Nat
deriving DecidableEq, Repr

/-- The `v1alpha1.Contract` payload, treated opaquely. -/
structure Contract where
  raw : String
deriving DecidableEq, Repr

/-- The deserialized success body of `Client.AcquireLicense`:
`{"contract"?: <object>, "license": <base64 bytes>}`. -/
structure LicenseContractResponse where
  contract : Option Contract
  license : List Nat
deriving DecidableEq, Repr

/-- The error classes `AcquireLicense` can return, one constructor per
`return nil, err` site.  `serverResponse` models
`apierrors.NewGenericServerResponse` with the arguments the code
passes: status code, method, group/resource name, and the raw response
body. -/
inductive AcquireErr where
  | marshal (e : Err)
  | newRequest (e : Err)
  | transport (e : Err)
  | serverResponse (status : Nat) (method : String) (groupName : String)
      (resource : String) (body : String)
  | unmarshal (e : Err)
deriving DecidableEq, Repr

/-- Oracle environment for the acquisition client's external calls. -/
structure AcquireEnv where
  /-- `json.Marshal` of the `{cluster, features}` request struct -/
  marshal : String → List String → Except Err String
  /-- URL validation inside `http.NewRequest` -/
  newRequestErr : String → Option Err
  /-- `http.DefaultClient.Do` followed by reading the body -/
  doRequest : Request → Except Err HTTPResp
  /-- `json.Unmarshal` into the `{license}` struct -/
  unmarshalLicense : String → Except Err LicenseResponse
  /-- `json.Unmarshal` into the `{contract, license}` struct -/
  unmarshalLicenseContract : String → Except Err LicenseContractResponse
  /-- `licenses.GroupName` (defined in the `apis` package) -/
  groupName : String

/-- The free function `client.AcquireLicense(token, clusterUID,
features)`, translated statement by statement.  The Go pair
`([]byte, error)` is `Except`: every error site returns nil bytes. -/
def AcquireLicense (env : AcquireEnv)
    (enforceLicense token clusterUID : String) (features : List String) :
    Except AcquireErr (List Nat) :=
  match env.marshal clusterUID features with
  | .error e => .error (.marshal e)
  | .ok data =>
    let url := LicenseIssuerAPIEndpoint enforceLicense
    match env.newRequestErr url with
    | some e => .error (.newRequest e)
    | none =>
      let req : Request :=
        ⟨"POST", url, data, if token = "" then none else some ("Bearer " ++ token)⟩
      match env.doRequest req with
      | .error e => .error (.transport e)
      | .ok resp =>
        if resp.statusCode ≠ 200 then
          .error (.serverResponse resp.statusCode "POST" env.groupName
            "License" resp.body)
        else
          match env.unmarshalLicense resp.body with
          | .error e => .error (.unmarshal e)
          | .ok lc => .ok lc.license

/-- The method `(c *Client) AcquireLicense(features)`, returning the
license bytes and the optional contract. -/
def Client.AcquireLicense (env : AcquireEnv) (c : Client)
    (features : List String) :
    Except AcquireErr (List Nat × Option Contract) :=
  match env.marshal c.clusterUID features with
  | .error e => .error (.marshal e)
  | .ok data =>
    match env.newRequestErr c.url with
    | some e => .error (.newRequest e)
    | none =>
      let req : Request :=
        ⟨"POST", c.url, data,
         if c.token = "" then none else some ("Bearer " ++ c.token)⟩
      match env.doRequest req with
      | .error e => .error (.transport e)
      | .ok resp =>
        if resp.statusCode ≠ 200 then
          .error (.serverResponse resp.statusCode "POST" env.groupName
            "License" resp.body)
        else
          match env.unmarshalLicenseContract resp.body with
          | .error e => .error (.unmarshal e)
          | .ok lc => .ok (lc.license, lc.contract)

/-- Go `unicode.IsSpace`: the Unicode White_Space property. -/
def goIsSpace (c : Char) : Bool :=
  let n := c.toNat
  (decide (0x9 ≤ n) && decide (n ≤ 0xd)) || n == 0x20 || n == 0x85 ||
    n == 0xa0 || n == 0x1680 ||
    (decide (0x2000 ≤ n) && decide (n ≤ 0x200a)) || n == 0x2028 ||
    n == 0x2029 || n == 0x202f || n == 0x205f || n == 0x3000

/-- The splitting predicate of `info.ParseFeatures`: Unicode
whitespace, comma, or semicolon. -/
def fieldSeparator (c : Char) : Bool :=
  goIsSpace c || c == ',' || c == ';'

/-- Go `strings.FieldsFunc`: the maximal non-empty runs of characters
not satisfying `f`. -/
def fieldsFunc (f : Char → Bool) (s : List Char) : List (List Char) :=
  (s.splitOnP f).filter (fun w => !w.isEmpty)

/-- Go byte-wise string order restricted to our code-point lists
(UTF-8 byte order coincides with code-point lexicographic order). -/
def listCharLe : List Char → List Char → Bool
  | [], _ => true
  | _ :: _, [] => false
  | a :: as, b :: bs =>
    if a.toNat < b.toNat then true
    else if b.toNat < a.toNat then false
    else listCharLe as bs

/-- Go string `<=` (the order used by `sort.Strings`). -/
def strLe (a b : String) : Bool :=
  listCharLe a.data b.data

/-- Insert a string into a `strLe`-sorted list. -/
def orderedInsertStr (x : String) : List String → List String
  | [] => [x]
  | y :: ys => if strLe x y then x :: y :: ys else y :: orderedInsertStr x ys

/-- Sort a string list by `strLe` (extensional behavior of
`sort.Strings`). -/
def sortStrings : List String → List String
  | [] => []
  | x :: xs => orderedInsertStr x (sortStrings xs)

/-- Extensional behavior of `sets.NewString(l...).List()` from
k8s.io/apimachinery: the sorted list of the distinct elements. -/
def setsNewStringList (l : List String) : List String :=
  sortStrings l.dedup

/-- `info.ParseFeatures`. -/
def ParseFeatures (features : String) : List String :=
  setsNewStringList
    ((fieldsFunc fieldSeparator features.data).map (fun w => String.mk w))

/-- `validateLicense` in explicit state-passing style: the translation
threads the receiver through every statement and returns it alongside
the outcome, mirroring the fact that no statement of the Go method
assigns to a field of `opt`. -/
def validateLicenseS {Config K8sClient : Type} (env : X509Env)
    (opt : LicenseOptions Config K8sClient) :
    VerifyOutcome × LicenseOptions Config K8sClient :=
  match env.pemDecode opt.license with
  | none => (.decodeFailure, opt)
  | some block =>
    match env.parseCertificate block.bytes with
    | .error e => (.parseFailure e, opt)
    | .ok cert =>
      if !env.appendCertsFromPEM opt.caCert then
        (.rootPoolFailure, opt)
      else
        match env.verify cert
            ⟨opt.clusterUID, opt.caCert, [.clientAuth]⟩ with
        | .error e => (.chainFailure e, opt)
        | .ok _ =>
          if !setsNewStringHas cert.subjectOrganization opt.productName then
            (.productMismatch opt.productName, opt)
          else
            (.success, opt)

/-- Test fixture: a certificate whose subject organization is
`["Acme"]`. -/
def certAcme : Cert := ⟨[48, 130], ["Acme"]⟩

/-- Test fixture: a crypto environment in which every check passes and
parsing yields `certAcme`. -/
def x509EnvOK : X509Env :=
  ⟨fun _ => some ⟨[48, 130]⟩, fun _ => .ok certAcme, fun _ => true,
   fun _ _ => .ok ()⟩

/-- Test fixture: a crypto environment in which PEM decoding finds no
block. -/
def x509EnvNoPem : X509Env :=
  ⟨fun _ => none, fun _ => .error "x509: malformed certificate",
   fun _ => false, fun _ _ => .error "bad chain"⟩

/-- Test fixture: license options for product `Acme` on cluster
`cluster-123`. -/
def optAcme : LicenseOptions Unit Unit :=
  ⟨"cluster-123", "Acme", [7], [8], (), some (), "license.pem"⟩

/-- Test fixture: `optAcme` with an empty license blob. -/
def optEmptyLicense : LicenseOptions Unit Unit :=
  { optAcme with license := [] }

/-- Test fixture: a failure-handler environment in which the process
is in-cluster and every reporting step succeeds. -/
def failureEnvOK : FailureEnv Unit Unit :=
  ⟨true, .ok "pod-1", "demo",
   fun _ _ _ => .ok ⟨"operator"⟩,
   fun _ => .ok ⟨"Deployment", "demo", "operator"⟩,
   fun _ => none,
   fun _ _ _ => none, 7⟩

/-- Test fixture: a crypto environment whose certificate carries the
empty-string organization, matching the zero-valued `productName` the
periodic entry point leaves in place. -/
def x509EnvEmptyOrg : X509Env :=
  ⟨fun _ => some ⟨[1]⟩, fun _ => .ok ⟨[1], [""]⟩, fun _ => true,
   fun _ _ => .ok ()⟩

/-- Test fixture: a scheduler environment in which session setup and
every verification attempt succeed. -/
def schedEnvOK : SchedulerEnv Unit Unit :=
  ⟨fun _ => .ok (), fun _ => .ok "cluster-123", fun _ => .ok [10],
   x509EnvEmptyOrg, failureEnvOK⟩

/-- Test fixture: the object reference the fixture environment
resolves for the root controller. -/
def refDeployment : ObjRef := ⟨"Deployment", "demo", "operator"⟩

/-- Test fixture: an acquisition environment whose issuer replies
HTTP 201 with a body that would deserialize successfully. -/
def acquireEnv201 : AcquireEnv :=
  ⟨fun _ _ => .ok "reqbody", fun _ => none, fun _ => .ok ⟨201, "licbody"⟩,
   fun _ => .ok ⟨[1, 2]⟩, fun _ => .ok ⟨none, [1, 2]⟩,
   "licenses.appscode.com"⟩

/-- Test fixture: an acquisition environment whose issuer replies
HTTP 403 with body `forbidden`. -/
def acquireEnv403 : AcquireEnv :=
  ⟨fun _ _ => .ok "reqbody", fun _ => none, fun _ => .ok ⟨403, "forbidden"⟩,
   fun _ => .ok ⟨[1, 2]⟩, fun _ => .ok ⟨none, [1, 2]⟩,
   "licenses.appscode.com"⟩

/-- Test fixture: a `url.Parse` oracle recognizing one base address
with a non-empty path. -/
def parseURLFixture : String → Except Err URL := fun s =>
  if s = "https://example.com/base" then .ok ⟨"https", "example.com", "/base"⟩
  else .error "invalid URL"

/-- The state-passing and the value-level renditions of
`validateLicense` compute the same outcome. -/
theorem validateLicenseS_fst {Config K8sClient : Type} (env : X509Env)
    (opt : LicenseOptions Config K8sClient) :
    (validateLicenseS env opt).1 = validateLicense env opt := by
  unfold validateLicenseS validateLicense
  repeat' split
  all_goals rfl

/-- Claim C3: the Certificate Validator performs its sub-checks in the
fixed order PEM decode, certificate parse, root-pool build, chain
verification (with DNS name set to the cluster identity and extended
key usage client auth), organization membership; the outcome is the
earliest failing check's category, and success exactly when all checks
pass. -/
theorem validateLicense_fixed_order {Config K8sClient : Type}
    (env : X509Env) (opt : LicenseOptions Config K8sClient) :
    (env.pemDecode opt.license = none →
      validateLicense env opt = .decodeFailure) ∧
    (∀ b e, env.pemDecode opt.license = some b →
      env.parseCertificate b.bytes = .error e →
      validateLicense env opt = .parseFailure e) ∧
    (∀ b cert, env.pemDecode opt.license = some b →
      env.parseCertificate b.bytes = .ok cert →
      env.appendCertsFromPEM opt.caCert = false →
      validateLicense env opt = .rootPoolFailure) ∧
    (∀ b cert e, env.pemDecode opt.license = some b →
      env.parseCertificate b.bytes = .ok cert →
      env.appendCertsFromPEM opt.caCert = true →
      env.verify cert ⟨opt.clusterUID, opt.caCert, [.clientAuth]⟩ = .error e →
      validateLicense env opt = .chainFailure e) ∧
    (∀ b cert, env.pemDecode opt.license = some b →
      env.parseCertificate b.bytes = .ok cert →
      env.appendCertsFromPEM opt.caCert = true →
      env.verify cert ⟨opt.clusterUID, opt.caCert, [.clientAuth]⟩ = .ok () →
      setsNewStringHas cert.subjectOrganization opt.productName = false →
      validateLicense env opt = .productMismatch opt.productName) ∧
    (validateLicense env opt = .success ↔
      ∃ b cert, env.pemDecode opt.license = some b ∧
        env.parseCertificate b.bytes = .ok cert ∧
        env.appendCertsFromPEM opt.caCert = true ∧
        env.verify cert ⟨opt.clusterUID, opt.caCert, [.clientAuth]⟩ = .ok () ∧
        setsNewStringHas cert.subjectOrganization opt.productName = true) := by
  refine ⟨?_, ?_, ?_, ?_, ?_, ?_⟩
  · intro h; simp [validateLicense, h]
  · intro b e hb he; simp [validateLicense, hb, he]
  · intro b cert hb hc hroots; simp [validateLicense, hb, hc, hroots]
  · intro b cert e hb hc hroots hv; simp [validateLicense, hb, hc, hroots, hv]
  · intro b cert hb hc hroots hv horg
    simp [validateLicense, hb, hc, hroots, hv, horg]
  · constructor
    · intro h
      rcases hb : env.pemDecode opt.license with _ | b
      · simp [validateLicense, hb] at h
      rcases hc : env.parseCertificate b.bytes with e | cert
      · simp [validateLicense, hb, hc] at h
      by_cases hroots : env.appendCertsFromPEM opt.caCert
      · rcases hv : env.verify cert ⟨opt.clusterUID, opt.caCert, [.clientAuth]⟩
            with e | u
        · simp [validateLicense, hb, hc, hroots, hv] at h
        by_cases horg : setsNewStringHas cert.subjectOrganization opt.productName
        · exact ⟨b, cert, rfl, hc, hroots, by cases u; exact hv, horg⟩
        · simp only [Bool.not_eq_true] at horg
          simp [validateLicense, hb, hc, hroots, hv, horg] at h
      · simp only [Bool.not_eq_true] at hroots
        simp [validateLicense, hb, hc, hroots] at h
    · rintro ⟨b, cert, hb, hc, hroots, hv, horg⟩
      simp [validateLicense, hb, hc, hroots, hv, horg]

/-- Witness for C3: in the all-pass fixture environment the validator
succeeds, obtained through the success characterization. -/
theorem validateLicense_fixed_order_witness :
    validateLicense x509EnvOK optAcme = .success :=
  (validateLicense_fixed_order x509EnvOK optAcme).2.2.2.2.2.mpr
    ⟨⟨[48, 130]⟩, certAcme, rfl, rfl, rfl, rfl, rfl⟩

/-- Claim C6: for malformed credential bytes — in particular the empty
input, and any input on which PEM decoding finds no block or the block
bytes fail to parse as a certificate — the validator returns the decode
or parse failure and never success.  The hypothesis `hempty` records
the `pem.Decode` library contract that empty input yields no block. -/
theorem validateLicense_malformed_never_success {Config K8sClient : Type}
    (env : X509Env) (opt : LicenseOptions Config K8sClient)
    (hempty : env.pemDecode [] = none) :
    (opt.license = [] → validateLicense env opt = .decodeFailure) ∧
    (env.pemDecode opt.license = none →
      validateLicense env opt = .decodeFailure ∧
        validateLicense env opt ≠ .success) ∧
    (∀ b e, env.pemDecode opt.license = some b →
      env.parseCertificate b.bytes = .error e →
      validateLicense env opt = .parseFailure e ∧
        validateLicense env opt ≠ .success) := by
  refine ⟨?_, ?_, ?_⟩
  · intro h; simp [validateLicense, h, hempty]
  · intro h; simp [validateLicense, h]
  · intro b e hb he; simp [validateLicense, hb, he]

/-- Witness for C6: the empty license blob is rejected with a decode
failure in the no-PEM fixture environment. -/
theorem validateLicense_malformed_never_success_witness :
    x509EnvNoPem.pemDecode [] = none ∧
      validateLicense x509EnvNoPem optEmptyLicense = .decodeFailure ∧
      validateLicense x509EnvNoPem optEmptyLicense ≠ .success :=
  ⟨rfl,
   (validateLicense_malformed_never_success x509EnvNoPem optEmptyLicense
      rfl).1 rfl,
   ((validateLicense_malformed_never_success x509EnvNoPem optEmptyLicense
      rfl).2.1 rfl).2⟩

/-- `sets.NewString(l...).Has(x)` is exactly list membership. -/
theorem setsNewStringHas_iff_mem (l : List String) (x : String) :
    setsNewStringHas l x = true ↔ x ∈ l := by
  simp [setsNewStringHas]

/-- `sets.NewString(l...).Has(x)` is invariant under permuting `l`. -/
theorem setsNewStringHas_perm {l l' : List String} (h : l.Perm l')
    (x : String) : setsNewStringHas l x = setsNewStringHas l' x := by
  rw [Bool.eq_iff_iff, setsNewStringHas_iff_mem, setsNewStringHas_iff_mem]
  exact h.mem_iff

/-- Claim C7: once decode, parse, root-pool build and chain
verification pass, the validator succeeds exactly when the product
name is a member of the certificate subject's organization set;
membership is order independent (permuting the organization list does
not change the outcome); otherwise it returns the product-mismatch
failure. -/
theorem validateLicense_product_membership {Config K8sClient : Type}
    (env : X509Env) (opt : LicenseOptions Config K8sClient)
    (b : PemBlock) (cert : Cert)
    (hb : env.pemDecode opt.license = some b)
    (hc : env.parseCertificate b.bytes = .ok cert)
    (hroots : env.appendCertsFromPEM opt.caCert = true)
    (hv : env.verify cert ⟨opt.clusterUID, opt.caCert, [.clientAuth]⟩ = .ok ()) :
    (validateLicense env opt = .success ↔
      opt.productName ∈ cert.subjectOrganization) ∧
    (opt.productName ∉ cert.subjectOrganization →
      validateLicense env opt = .productMismatch opt.productName) ∧
    (∀ (env' : X509Env) (cert' : Cert),
      cert'.subjectOrganization.Perm cert.subjectOrganization →
      env'.pemDecode opt.license = some b →
      env'.parseCertificate b.bytes = .ok cert' →
      env'.appendCertsFromPEM opt.caCert = true →
      env'.verify cert' ⟨opt.clusterUID, opt.caCert, [.clientAuth]⟩ = .ok () →
      validateLicense env' opt = validateLicense env opt) := by
  have hmem := setsNewStringHas_iff_mem cert.subjectOrganization opt.productName
  refine ⟨?_, ?_, ?_⟩
  · by_cases horg : setsNewStringHas cert.subjectOrganization opt.productName
    · simp [validateLicense, hb, hc, hroots, hv, horg, hmem.mp horg]
    · have hnm : opt.productName ∉ cert.subjectOrganization :=
        fun hm => horg (hmem.mpr hm)
      simp only [Bool.not_eq_true] at horg
      simp [validateLicense, hb, hc, hroots, hv, horg, hnm]
  · intro hnm
    have horg : setsNewStringHas cert.subjectOrganization opt.productName = false := by
      rw [← Bool.not_eq_true]
      exact fun hh => hnm (hmem.mp hh)
    simp [validateLicense, hb, hc, hroots, hv, horg]
  · intro env' cert' hperm hb' hc' hroots' hv'
    have hsame : setsNewStringHas cert'.subjectOrganization opt.productName =
        setsNewStringHas cert.subjectOrganization opt.productName :=
      setsNewStringHas_perm hperm opt.productName
    simp [validateLicense, hb, hc, hroots, hv, hb', hc', hroots', hv', hsame]

/-- Witness for C7: the fixture certificate's organization set lacks
`Other`, so verification of product `Other` reports the mismatch. -/
theorem validateLicense_product_membership_witness :
    validateLicense x509EnvOK { optAcme with productName := "Other" } =
      .productMismatch "Other" :=
  (validateLicense_product_membership x509EnvOK
    { optAcme with productName := "Other" } ⟨[48, 130]⟩ certAcme
    rfl rfl rfl rfl).2.1 (by decide)

/-- Claim C9: `validateLicense` reads but never mutates its receiver —
after any call, every field of the `LicenseOptions` holds the value it
held before, whatever the outcome. -/
theorem validateLicense_receiver_frame {Config K8sClient : Type}
    (env : X509Env) (opt : LicenseOptions Config K8sClient) :
    (validateLicenseS env opt).2 = opt ∧
    (validateLicenseS env opt).2.clusterUID = opt.clusterUID ∧
    (validateLicenseS env opt).2.productName = opt.productName ∧
    (validateLicenseS env opt).2.caCert = opt.caCert ∧
    (validateLicenseS env opt).2.license = opt.license ∧
    (validateLicenseS env opt).2.config = opt.config ∧
    (validateLicenseS env opt).2.k8sClient = opt.k8sClient ∧
    (validateLicenseS env opt).2.licenseFile = opt.licenseFile := by
  have h : (validateLicenseS env opt).2 = opt := by
    unfold validateLicenseS
    repeat' split
    all_goals rfl
  exact ⟨h, by rw [h], by rw [h], by rw [h], by rw [h], by rw [h],
    by rw [h], by rw [h]⟩

/-- Claim C2: for every verification failure passed to the failure
handler, and on every execution path of its body — not in-cluster,
hostname failure, workload-detection failure, reference failure, a
panic, event-write failure or success — the deferred closure sends
SIGINT to the process's own pid and exits with status 1, a non-zero
status. -/
theorem handleLicenseVerificationFailure_terminates
    {Config K8sClient : Type} (env : FailureEnv Config K8sClient)
    (opt : LicenseOptions Config K8sClient) (licenseErr : Err) :
    (handleLicenseVerificationFailure env opt licenseErr).sentSIGINT = true ∧
    (handleLicenseVerificationFailure env opt licenseErr).exitCode = some 1 ∧
    (handleLicenseVerificationFailure env opt licenseErr).exitCode ≠ some 0 := by
  refine ⟨rfl, rfl, ?_⟩
  intro h
  simp [handleLicenseVerificationFailure] at h

/-- Claim C1 (code bug): when session setup succeeds and the first
verification attempt succeeds, the condition closure returns
`(true, nil)`, so `wait.PollUntil` returns nil and the loop performs
exactly one attempt and exits — however many ticks remain before the
cancellation signal — instead of continuing to the next tick. -/
theorem verifyLicensePeriodically_stops_after_first_success
    {Config K8sClient : Type} (env : SchedulerEnv Config K8sClient)
    (config : Config) (lf : String) (k : K8sClient) (uid : String)
    (lic : List Nat)
    (h1 : env.newForConfig config = .ok k)
    (h2 : env.clusterUID (some k) = .ok uid)
    (h3 : env.readFile lf = .ok lic)
    (h4 : validateLicense env.x509
      ⟨uid, "", [], lic, config, some k, lf⟩ = .success) :
    ∀ n : Nat,
      (verifyLicensePeriodically env config lf (n + 1)).1 = .poll .condTrue ∧
      (verifyLicensePeriodically env config lf (n + 1)).2.attempts = 1 := by
  intro n
  have hS : (validateLicense env.x509
      ⟨uid, "", [], lic, config, some k, lf⟩).toError = none := by
    rw [h4]; rfl
  unfold verifyLicensePeriodically createClients readClusterUID
  simp only [h1, h2]
  unfold pollUntil verifyPeriodicallyCond readLicenseFromFile
  simp only [h3]
  simp [hS]

/-- Witness for C1: in the all-success fixture, five ticks are
available before cancellation, yet the function returns after a single
verification attempt. -/
theorem verifyLicensePeriodically_stops_witness :
    (verifyLicensePeriodically schedEnvOK () "license.pem" 5).1 =
      .poll .condTrue ∧
    (verifyLicensePeriodically schedEnvOK () "license.pem" 5).2.attempts = 1 :=
  verifyLicensePeriodically_stops_after_first_success schedEnvOK ()
    "license.pem" () "cluster-123" [10] rfl rfl rfl (by decide) 4

/-- Claim C4 (code bug): on the in-cluster path with workload detection
and reference construction succeeding, the event-mutation closure
computes its message from the captured `err` variable — the nil
`GetReference` error — instead of the verification failure, so it
panics on the nil error value and no event is ever upserted; applying
the same closure to the underlying failure text (as the specification
describes) would produce the Warning event with the fixed reason, the
message containing the failure text, an incremented count and the
first/last timestamps set. -/
theorem handleLicenseVerificationFailure_event_message_bug :
    (handleLicenseVerificationFailure failureEnvOK optAcme
        "certificate expired").body = .panicked .nilErrorMethodCall ∧
    (handleLicenseVerificationFailure failureEnvOK optAcme
        "certificate expired").eventWritten = none ∧
    eventTransform (some "certificate expired") refDeployment 7
        (newEvent ⟨"operator-license", "demo"⟩) =
      .ok { involvedObject := refDeployment
            typ := "Warning"
            sourceComponent := EventSourceLicenseVerifier
            reason := EventReasonLicenseVerificationFailed
            message := "Failed to verify license. Reason: certificate expired"
            firstTimestamp := 7
            lastTimestamp := 7
            count := 1 } := by
  refine ⟨rfl, rfl, ?_⟩
  have hmsg : "Failed to verify license. Reason: " ++ "certificate expired" =
      "Failed to verify license. Reason: certificate expired" := by decide
  simp [eventTransform, newEvent, hmsg]

/-- Counterexample to C5 as stated: HTTP 201 is a success (2xx)
status and the body would deserialize, yet both acquisition functions
return the structured server-response error instead of deserializing,
because the code treats exactly 200 as success. -/
theorem acquireLicense_201_counterexample :
    ((200 : Nat) ≤ 201 ∧ (201 : Nat) < 300) ∧
    acquireEnv201.unmarshalLicense "licbody" = .ok ⟨[1, 2]⟩ ∧
    AcquireLicense acquireEnv201 "" "tok" "c1" ["alpha"] =
      .error (.serverResponse 201 "POST" "licenses.appscode.com" "License"
        "licbody") ∧
    Client.AcquireLicense acquireEnv201 ⟨"u", "tok", "c1"⟩ ["alpha"] =
      .error (.serverResponse 201 "POST" "licenses.appscode.com" "License"
        "licbody") := by
  exact ⟨by decide, rfl, rfl, rfl⟩

/-- Claim C5 (amended): a response whose transport status is anything
other than 200 yields the structured server-response error carrying
the status code and the raw body, with no credential bytes and no
deserialization attempt; a status-200 response is deserialized, a
deserialization failure being reported as the distinct unmarshal
error, and on success the credential byte field is returned.  Both the
free function and the client method behave this way. -/
theorem acquireLicense_response_handling (env : AcquireEnv)
    (enforceLicense token clusterUID : String) (features : List String)
    (data : String) (resp : HTTPResp)
    (hm : env.marshal clusterUID features = .ok data)
    (hr : env.newRequestErr (LicenseIssuerAPIEndpoint enforceLicense) = none)
    (hd : env.doRequest ⟨"POST", LicenseIssuerAPIEndpoint enforceLicense, data,
        if token = "" then none else some ("Bearer " ++ token)⟩ = .ok resp) :
    (resp.statusCode ≠ 200 →
      AcquireLicense env enforceLicense token clusterUID features =
        .error (.serverResponse resp.statusCode "POST" env.groupName
          "License" resp.body)) ∧
    (resp.statusCode = 200 →
      (∀ e, env.unmarshalLicense resp.body = .error e →
        AcquireLicense env enforceLicense token clusterUID features =
          .error (.unmarshal e)) ∧
      (∀ lc, env.unmarshalLicense resp.body = .ok lc →
        AcquireLicense env enforceLicense token clusterUID features =
          .ok lc.license)) ∧
    (∀ (c : Client) (data' : String) (resp' : HTTPResp),
      env.marshal c.clusterUID features = .ok data' →
      env.newRequestErr c.url = none →
      env.doRequest ⟨"POST", c.url, data',
        if c.token = "" then none else some ("Bearer " ++ c.token)⟩ =
          .ok resp' →
      (resp'.statusCode ≠ 200 →
        Client.AcquireLicense env c features =
          .error (.serverResponse resp'.statusCode "POST" env.groupName
            "License" resp'.body)) ∧
      (resp'.statusCode = 200 →
        (∀ e, env.unmarshalLicenseContract resp'.body = .error e →
          Client.AcquireLicense env c features = .error (.unmarshal e)) ∧
        (∀ lc, env.unmarshalLicenseContract resp'.body = .ok lc →
          Client.AcquireLicense env c features =
            .ok (lc.license, lc.contract)))) := by
  refine ⟨?_, ?_, ?_⟩
  · intro hs
    simp [AcquireLicense, hm, hr, hd, hs]
  · intro hs
    constructor
    · intro e hu
      simp [AcquireLicense, hm, hr, hd, hs, hu]
    · intro lc hu
      simp [AcquireLicense, hm, hr, hd, hs, hu]
  · intro c data' resp' hm' hr' hd'
    constructor
    · intro hs
      simp [Client.AcquireLicense, hm', hr', hd', hs]
    · intro hs
      constructor
      · intro e hu
        simp [Client.AcquireLicense, hm', hr', hd', hs, hu]
      · intro lc hu
        simp [Client.AcquireLicense, hm', hr', hd', hs, hu]

/-- Witness for C5 (amended): the spec's concrete scenario — issuer
replies 403 with body `forbidden` — yields the structured error
carrying status 403 and that body. -/
theorem acquireLicense_response_handling_witness :
    AcquireLicense acquireEnv403 "" "" "c1" ["alpha"] =
      .error (.serverResponse 403 "POST" "licenses.appscode.com" "License"
        "forbidden") :=
  (acquireLicense_response_handling acquireEnv403 "" "" "c1" ["alpha"]
    "reqbody" ⟨403, "forbidden"⟩ rfl rfl rfl).1 (by decide)

/-- Claim C8: with an empty base address the client's request URL is
the default issuer address selected by the enforcement flag — skip
verification picks the non-production address, otherwise the
production address — joined with the fixed path
`api/v1/license/issue`; with a non-empty base address the same fixed
path segment is appended to that address's path. -/
theorem newClient_endpoint_resolution
    (parseURL : String → Except Err URL)
    (enforceLicense token clusterUID : String) :
    (NewClient parseURL enforceLicense "" token clusterUID =
      .ok ⟨LicenseIssuerAPIEndpoint enforceLicense, token, clusterUID⟩) ∧
    (SkipLicenseVerification enforceLicense = true →
      LicenseIssuerAPIEndpoint enforceLicense =
        "https://appscode.ninja/api/v1/license/issue") ∧
    (SkipLicenseVerification enforceLicense = false →
      LicenseIssuerAPIEndpoint enforceLicense =
        "https://byte.builders/api/v1/license/issue") ∧
    (∀ baseURL u, baseURL ≠ "" → parseURL baseURL = .ok u →
      NewClient parseURL enforceLicense baseURL token clusterUID =
        .ok ⟨urlString { u with path := pathJoin [u.path, licenseIssuerAPIPath] },
             token, clusterUID⟩) := by
  refine ⟨?_, ?_, ?_, ?_⟩
  · simp [NewClient]
  · intro h
    simp only [LicenseIssuerAPIEndpoint, APIServerAddress, h, if_true]
    decide
  · intro h
    simp only [LicenseIssuerAPIEndpoint, APIServerAddress, h,
      Bool.false_eq_true, if_false]
    decide
  · intro baseURL u hne hp
    simp [NewClient, hne, hp]

/-- Witness for C8: with `EnforceLicense = "true"` the default
endpoint is the production issuer, and a non-empty base address gets
the fixed path appended. -/
theorem newClient_endpoint_resolution_witness :
    LicenseIssuerAPIEndpoint "true" =
      "https://byte.builders/api/v1/license/issue" ∧
    NewClient parseURLFixture "true" "https://example.com/base" "t" "c" =
      .ok ⟨"https://example.com/base/api/v1/license/issue", "t", "c"⟩ := by
  have h := newClient_endpoint_resolution parseURLFixture "true" "t" "c"
  refine ⟨h.2.2.1 (by decide), ?_⟩
  have h4 := h.2.2.2 "https://example.com/base"
    ⟨"https", "example.com", "/base"⟩ (by decide) rfl
  exact h4.trans rfl

/-- Chunks produced by `splitOnP` contain no element satisfying the
predicate. -/
theorem splitOnP_sepfree {α : Type _} (p : α → Bool) :
    ∀ (l : List α) (w : List α), w ∈ l.splitOnP p → ∀ a ∈ w, p a = false := by
  intro l
  induction l with
  | nil =>
    intro w hw a ha
    rw [List.splitOnP_nil] at hw
    simp only [List.mem_singleton] at hw
    subst hw
    simp at ha
  | cons x xs ih =>
    intro w hw a ha
    rw [List.splitOnP_cons] at hw
    by_cases hx : p x
    · rw [if_pos hx] at hw
      rcases List.mem_cons.mp hw with rfl | hw
      · simp at ha
      · exact ih w hw a ha
    · rw [if_neg hx] at hw
      rcases hsp : xs.splitOnP p with _ | ⟨hd, tl⟩
      · exact absurd hsp (List.splitOnP_ne_nil p xs)
      rw [hsp, List.modifyHead_cons] at hw
      rcases List.mem_cons.mp hw with rfl | hw
      · rcases List.mem_cons.mp ha with rfl | ha
        · exact Bool.not_eq_true _ ▸ (by simpa using hx)
        · refine ih hd ?_ a ha
          rw [hsp]
          exact List.mem_cons_self hd tl
      · refine ih w ?_ a ha
        rw [hsp]
        exact List.mem_cons_of_mem hd hw

/-- `intercalate` over a singleton list of chunks. -/
theorem intercalate_single_chunk {α : Type _} (sep : List α) (x : List α) :
    List.intercalate sep [x] = x := by
  simp [List.intercalate]

/-- `intercalate` over at least two chunks exposes one separator. -/
theorem intercalate_cons_two {α : Type _} (sep x y : List α)
    (zs : List (List α)) :
    List.intercalate sep (x :: y :: zs) =
      x ++ sep ++ List.intercalate sep (y :: zs) := by
  simp [List.intercalate, List.intersperse_cons₂, List.append_assoc]

/-- Splitting the separator-joined chunks recovers the chunks, when no
chunk contains a separator. -/
theorem splitOnP_intercalate_sepfree {α : Type _} (p : α → Bool) (sep : α)
    (hsep : p sep = true) :
    ∀ (ws : List (List α)), ws ≠ [] →
      (∀ w ∈ ws, ∀ a ∈ w, p a = false) →
      List.splitOnP p (List.intercalate [sep] ws) = ws := by
  intro ws
  induction ws with
  | nil => intro h; exact absurd rfl h
  | cons w rest ih =>
    intro _ hfree
    cases rest with
    | nil =>
      rw [intercalate_single_chunk]
      exact List.splitOnP_eq_single p w fun a ha => by
        simp [hfree w (List.mem_cons_self w []) a ha]
    | cons w' rest' =>
      rw [intercalate_cons_two]
      have hshape : w ++ [sep] ++ List.intercalate [sep] (w' :: rest') =
          w ++ sep :: List.intercalate [sep] (w' :: rest') := by
        simp
      rw [hshape,
        List.splitOnP_first p w
          (fun a ha => by
            simp [hfree w (List.mem_cons_self w (w' :: rest')) a ha])
          sep hsep,
        ih (List.cons_ne_nil w' rest')
          (fun v hv a ha => hfree v (List.mem_cons_of_mem w hv) a ha)]

/-- `fieldsFunc` of the separator-joined fields recovers the fields,
when every field is non-empty and separator free. -/
theorem fieldsFunc_intercalate (p : Char → Bool) (sep : Char)
    (hsep : p sep = true) (ws : List (List Char)) (hne : ws ≠ [])
    (hnonempty : ∀ w ∈ ws, w ≠ [])
    (hfree : ∀ w ∈ ws, ∀ a ∈ w, p a = false) :
    fieldsFunc p (List.intercalate [sep] ws) = ws := by
  rw [fieldsFunc, splitOnP_intercalate_sepfree p sep hsep ws hne hfree]
  exact List.filter_eq_self.mpr fun w hw => by simp [hnonempty w hw]

/-- Fields returned by `fieldsFunc` are non-empty. -/
theorem mem_fieldsFunc_ne_nil {f : Char → Bool} {s w : List Char}
    (hw : w ∈ fieldsFunc f s) : w ≠ [] := by
  rw [fieldsFunc] at hw
  have := List.of_mem_filter hw
  simpa using this

/-- Fields returned by `fieldsFunc` contain no separator. -/
theorem mem_fieldsFunc_sepfree {f : Char → Bool} {s w : List Char}
    (hw : w ∈ fieldsFunc f s) : ∀ c ∈ w, f c = false := by
  rw [fieldsFunc] at hw
  exact splitOnP_sepfree f s w (List.mem_of_mem_filter hw)

/-- `listCharLe` is total. -/
theorem listCharLe_total : ∀ (a b : List Char),
    listCharLe a b = true ∨ listCharLe b a = true := by
  intro a
  induction a with
  | nil => intro b; left; rfl
  | cons x xs ih =>
    intro b
    cases b with
    | nil => right; rfl
    | cons y ys =>
      rcases Nat.lt_trichotomy x.toNat y.toNat with h | h | h
      · left; simp [listCharLe, h]
      · have h1 : ¬x.toNat < y.toNat := by omega
        have h2 : ¬y.toNat < x.toNat := by omega
        rcases ih ys with hc | hc
        · left; simp [listCharLe, h1, h2, hc]
        · right; simp [listCharLe, h1, h2, hc]
      · right; simp [listCharLe, h, Nat.lt_asymm h]

/-- `listCharLe` is transitive. -/
theorem listCharLe_trans : ∀ (a b c : List Char),
    listCharLe a b = true → listCharLe b c = true →
    listCharLe a c = true := by
  intro a
  induction a with
  | nil => intro b c _ _; rfl
  | cons x xs ih =>
    intro b c hab hbc
    cases b with
    | nil => simp [listCharLe] at hab
    | cons y ys =>
      cases c with
      | nil => simp [listCharLe] at hbc
      | cons z zs =>
        rcases Nat.lt_trichotomy x.toNat y.toNat with h1 | h1 | h1
        · rcases Nat.lt_trichotomy y.toNat z.toNat with h2 | h2 | h2
          · simp [listCharLe, Nat.lt_trans h1 h2]
          · simp [listCharLe, h2 ▸ h1]
          · simp [listCharLe, Nat.lt_asymm h2, h2] at hbc
        · rcases Nat.lt_trichotomy y.toNat z.toNat with h2 | h2 | h2
          · simp [listCharLe, h1 ▸ h2]
          · have hxz : x.toNat = z.toNat := h1.trans h2
            have hn1 : ¬x.toNat < y.toNat := by omega
            have hn2 : ¬y.toNat < x.toNat := by omega
            have hn3 : ¬y.toNat < z.toNat := by omega
            have hn4 : ¬z.toNat < y.toNat := by omega
            have hn5 : ¬x.toNat < z.toNat := by omega
            have hn6 : ¬z.toNat < x.toNat := by omega
            simp only [listCharLe, hn1, hn2, if_false] at hab
            simp only [listCharLe, hn3, hn4, if_false] at hbc
            simp only [listCharLe, hn5, hn6, if_false]
            exact ih ys zs hab hbc
          · simp [listCharLe, Nat.lt_asymm h2, h2] at hbc
        · simp [listCharLe, Nat.lt_asymm h1, h1] at hab

/-- `strLe` is total. -/
theorem strLe_total (a b : String) :
    strLe a b = true ∨ strLe b a = true :=
  listCharLe_total a.data b.data

/-- `strLe` is transitive. -/
theorem strLe_trans {a b c : String} (hab : strLe a b = true)
    (hbc : strLe b c = true) : strLe a c = true :=
  listCharLe_trans a.data b.data c.data hab hbc

/-- Membership in an ordered insertion. -/
theorem mem_orderedInsertStr {x a : String} : ∀ {l : List String},
    a ∈ orderedInsertStr x l ↔ a = x ∨ a ∈ l := by
  intro l
  induction l with
  | nil => simp [orderedInsertStr]
  | cons y ys ih =>
    by_cases h : strLe x y
    · simp [orderedInsertStr, h]
    · simp only [orderedInsertStr, h, Bool.false_eq_true, if_false,
        List.mem_cons, ih]
      tauto

/-- Ordered insertion permutes consing. -/
theorem perm_orderedInsertStr (x : String) : ∀ (l : List String),
    (orderedInsertStr x l).Perm (x :: l) := by
  intro l
  induction l with
  | nil => exact List.Perm.refl _
  | cons y ys ih =>
    by_cases h : strLe x y
    · simp [orderedInsertStr, h]
    · rw [orderedInsertStr, if_neg h]
      exact (ih.cons y).trans (List.Perm.swap x y ys)

/-- `sortStrings` permutes its input. -/
theorem perm_sortStrings : ∀ (l : List String), (sortStrings l).Perm l := by
  intro l
  induction l with
  | nil => exact List.Perm.refl _
  | cons x xs ih =>
    exact (perm_orderedInsertStr x (sortStrings xs)).trans (ih.cons x)

/-- Ordered insertion preserves sortedness. -/
theorem pairwise_orderedInsertStr (x : String) : ∀ {l : List String},
    l.Pairwise (fun a b => strLe a b = true) →
    (orderedInsertStr x l).Pairwise (fun a b => strLe a b = true) := by
  intro l
  induction l with
  | nil => intro _; simp [orderedInsertStr]
  | cons y ys ih =>
    intro hl
    rcases List.pairwise_cons.mp hl with ⟨hy, hys⟩
    by_cases h : strLe x y
    · rw [orderedInsertStr, if_pos h]
      refine List.pairwise_cons.mpr ⟨?_, hl⟩
      intro b hb
      rcases List.mem_cons.mp hb with rfl | hb
      · exact h
      · exact strLe_trans h (hy b hb)
    · rw [orderedInsertStr, if_neg h]
      have hyx : strLe y x = true := (strLe_total x y).resolve_left h
      refine List.pairwise_cons.mpr ⟨?_, ih hys⟩
      intro b hb
      rcases mem_orderedInsertStr.mp hb with rfl | hb
      · exact hyx
      · exact hy b hb

/-- `sortStrings` sorts. -/
theorem pairwise_sortStrings (l : List String) :
    (sortStrings l).Pairwise (fun a b => strLe a b = true) := by
  induction l with
  | nil => simp [sortStrings]
  | cons x xs ih => exact pairwise_orderedInsertStr x ih

/-- A sorted list is a fixed point of `sortStrings`. -/
theorem sortStrings_eq_of_pairwise : ∀ {l : List String},
    l.Pairwise (fun a b => strLe a b = true) → sortStrings l = l := by
  intro l
  induction l with
  | nil => intro _; rfl
  | cons x xs ih =>
    intro h
    rcases List.pairwise_cons.mp h with ⟨hx, hxs⟩
    show orderedInsertStr x (sortStrings xs) = x :: xs
    rw [ih hxs]
    cases xs with
    | nil => rfl
    | cons y ys =>
      rw [orderedInsertStr, if_pos (hx y (List.mem_cons_self y ys))]

/-- `intercalate` over a non-empty chunk list, flattened form. -/
theorem intercalate_cons_flatten {α : Type _} (sep : List α) :
    ∀ (xs : List (List α)) (x : List α),
      List.intercalate sep (x :: xs) =
        x ++ (xs.map (fun a => sep ++ a)).flatten := by
  intro xs
  induction xs with
  | nil => intro x; simp [intercalate_single_chunk]
  | cons y ys ih =>
    intro x
    rw [intercalate_cons_two, ih y]
    simp [List.append_assoc]

/-- Data of `String.intercalate.go`. -/
theorem strIntercalateGo_data (s : String) :
    ∀ (as : List String) (acc : String),
      (String.intercalate.go acc s as).data =
        acc.data ++ (as.map (fun a => s.data ++ a.data)).flatten := by
  intro as
  induction as with
  | nil => intro acc; simp [String.intercalate.go]
  | cons a as ih =>
    intro acc
    rw [String.intercalate.go, ih]
    simp [List.append_assoc]

/-- `String.intercalate` agrees with `List.intercalate` on the
underlying character lists. -/
theorem strIntercalate_data (s : String) (l : List String) :
    (String.intercalate s l).data =
      List.intercalate s.data (l.map String.data) := by
  cases l with
  | nil => rfl
  | cons a as =>
    rw [String.intercalate, strIntercalateGo_data, List.map_cons,
      intercalate_cons_flatten, List.map_map]
    rfl

/-- Membership in `ParseFeatures` is membership in the split fields. -/
theorem mem_parseFeatures_iff (s : String) (w : String) :
    w ∈ ParseFeatures s ↔
      w ∈ (fieldsFunc fieldSeparator s.data).map (fun v => String.mk v) := by
  rw [ParseFeatures, setsNewStringList, (perm_sortStrings _).mem_iff]
  exact List.mem_dedup

/-- `ParseFeatures` output has no duplicates. -/
theorem parseFeatures_nodup (s : String) : (ParseFeatures s).Nodup := by
  rw [ParseFeatures, setsNewStringList]
  exact ((perm_sortStrings _).nodup_iff).mpr (List.nodup_dedup _)

/-- `ParseFeatures` output is sorted by `strLe`. -/
theorem parseFeatures_sorted (s : String) :
    (ParseFeatures s).Pairwise (fun a b => strLe a b = true) := by
  rw [ParseFeatures, setsNewStringList]
  exact pairwise_sortStrings _

/-- Every `ParseFeatures` output element is a non-empty,
separator-free field. -/
theorem parseFeatures_fields_facts (s : String) :
    ∀ w ∈ ParseFeatures s,
      w.data ≠ [] ∧ ∀ c ∈ w.data, fieldSeparator c = false := by
  intro w hw
  rcases List.mem_map.mp ((mem_parseFeatures_iff s w).mp hw) with ⟨v, hv, rfl⟩
  exact ⟨mem_fieldsFunc_ne_nil hv, mem_fieldsFunc_sepfree hv⟩

/-- Re-parsing the comma-join of `ParseFeatures` output returns the
same list. -/
theorem parseFeatures_idem (s : String) :
    ParseFeatures (String.intercalate "," (ParseFeatures s)) =
      ParseFeatures s := by
  by_cases hnil : ParseFeatures s = []
  · rw [hnil]
    decide
  · have hfacts := parseFeatures_fields_facts s
    have hnodup := parseFeatures_nodup s
    have hsorted := parseFeatures_sorted s
    have hdata : (String.intercalate "," (ParseFeatures s)).data =
        List.intercalate [','] ((ParseFeatures s).map String.data) :=
      strIntercalate_data "," (ParseFeatures s)
    have hmapne : (ParseFeatures s).map String.data ≠ [] := by
      simpa using hnil
    have hfields : fieldsFunc fieldSeparator
        (List.intercalate [','] ((ParseFeatures s).map String.data)) =
        (ParseFeatures s).map String.data :=
      fieldsFunc_intercalate fieldSeparator ',' (by decide) _ hmapne
        (fun v hv => by
          rcases List.mem_map.mp hv with ⟨w, hw, rfl⟩
          exact (hfacts w hw).1)
        (fun v hv c hc => by
          rcases List.mem_map.mp hv with ⟨w, hw, rfl⟩
          exact (hfacts w hw).2 c hc)
    conv_lhs => rw [ParseFeatures]
    rw [hdata, hfields, List.map_map]
    have hmapmk : (ParseFeatures s).map
        ((fun v => String.mk v) ∘ String.data) = ParseFeatures s := by
      have : ((fun v => String.mk v) ∘ String.data) = (id : String → String) :=
        funext fun w => rfl
      rw [this, List.map_id]
    rw [hmapmk, setsNewStringList, List.dedup_eq_self.mpr hnodup,
      sortStrings_eq_of_pairwise hsorted]

/-- Claim C10: for every input string, `ParseFeatures` returns the
distinct non-empty substrings obtained by splitting on Unicode
whitespace, commas and semicolons, deduplicated and sorted: the output
never contains duplicates or the empty string, it is sorted, its
members are exactly the split fields, and applying `ParseFeatures` to
the comma-join of its own output returns the same list. -/
theorem parseFeatures_spec (s : String) :
    (ParseFeatures s).Nodup ∧
    "" ∉ ParseFeatures s ∧
    (ParseFeatures s).Pairwise (fun a b => strLe a b = true) ∧
    (∀ w, w ∈ ParseFeatures s ↔
      w ∈ (fieldsFunc fieldSeparator s.data).map (fun v => String.mk v)) ∧
    ParseFeatures (String.intercalate "," (ParseFeatures s)) =
      ParseFeatures s := by
  refine ⟨parseFeatures_nodup s, ?_, parseFeatures_sorted s,
    mem_parseFeatures_iff s, parseFeatures_idem s⟩
  intro hmem
  exact (parseFeatures_fields_facts s "" hmem).1 rfl

end LicenseVerifier

